import Mathlib

/-!
Verification of the GDG network-graph front end (src/index.js).

The file embeds the pure logic of the program in Lean:
* the search matcher (fuzzyMatch / getMatchScore, lines 377-398),
* the search input handler (lines 401-450),
* the relationship builder (yearGroups / links, lines 148-184),
* the tooltip positioner (positionTooltip, lines 47-76),
* the selection state transitions of the click handlers
  (lines 134-142, 226-242, 353-360).

JS strings are modelled as Lean strings; `toLowerCase` is modelled by
mapping `Char.toLower` over the character list, and the JS string
primitives `startsWith` / `includes` are re-implemented over character
lists exactly as they behave on the ASCII data the program handles.
-/

/-- JS `s.toLowerCase()` as a character list. -/
def lowerData (s : String) : List Char :=
  s.data.map Char.toLower

/-- JS `text.startsWith(query)` over character lists. -/
def strStartsWith : List Char → List Char → Bool
  | _, [] => true
  | [], _ :: _ => false
  | t :: ts, q :: qs => t = q && strStartsWith ts qs

/-- JS `text.includes(query)` over character lists: some suffix of the
text starts with the query. -/
def strIncludes : List Char → List Char → Bool
  | [], q => strStartsWith [] q
  | t :: ts, q => strStartsWith (t :: ts) q || strIncludes ts q

/-- The left-to-right scan of `fuzzyMatch` (index.js lines 377-386):
walk the text once, advancing through the query on every character
match; succeed when the whole query has been consumed. -/
def fuzzySub : List Char → List Char → Bool
  | _, [] => true
  | [], _ :: _ => false
  | t :: ts, q :: qs => if t = q then fuzzySub ts qs else fuzzySub ts (q :: qs)

/-- `fuzzyMatch(text, query)` (index.js lines 377-386): the text is
lowercased inside, the query is pre-lowercased by the caller. -/
def fuzzyMatch (text query : String) : Bool :=
  fuzzySub (lowerData text) query.data

/-- `getMatchScore(text, query)` (index.js lines 392-398). -/
def getMatchScore (text query : String) : Nat :=
  if strStartsWith (lowerData text) query.data then 100
  else if strIncludes (lowerData text) query.data then 50
  else if fuzzyMatch text query then 25
  else 0

theorem strStartsWith_iff (t q : List Char) :
    strStartsWith t q = true ↔ ∃ r, t = q ++ r := by
  induction q generalizing t with
  | nil =>
    simp [strStartsWith]
  | cons qc qs ih =>
    cases t with
    | nil =>
      simp [strStartsWith]
    | cons tc ts =>
      simp only [strStartsWith, Bool.and_eq_true, decide_eq_true_eq, ih]
      constructor
      · rintro ⟨h1, r, h2⟩
        exact ⟨r, by simp [h1, h2]⟩
      · rintro ⟨r, h⟩
        simp only [List.cons_append, List.cons.injEq] at h
        exact ⟨h.1, r, h.2⟩

theorem strIncludes_iff (t q : List Char) :
    strIncludes t q = true ↔ ∃ u v, t = u ++ q ++ v := by
  induction t with
  | nil =>
    simp only [strIncludes, strStartsWith_iff]
    constructor
    · rintro ⟨r, h⟩
      exact ⟨[], r, by simpa using h⟩
    · rintro ⟨u, v, h⟩
      cases u with
      | nil => exact ⟨v, by simpa using h⟩
      | cons a us => simp at h
  | cons tc ts ih =>
    simp only [strIncludes, Bool.or_eq_true, strStartsWith_iff, ih]
    constructor
    · rintro (⟨r, h⟩ | ⟨u, v, h⟩)
      · exact ⟨[], r, by simpa using h⟩
      · exact ⟨tc :: u, v, by simp [h]⟩
    · rintro ⟨u, v, h⟩
      cases u with
      | nil => exact Or.inl ⟨v, by simpa using h⟩
      | cons a us =>
        simp only [List.cons_append, List.cons.injEq] at h
        exact Or.inr ⟨us, v, h.2⟩

/-- The greedy single-pass scan decides exactly the in-order
subsequence relation. -/
theorem fuzzySub_iff (t q : List Char) :
    fuzzySub t q = true ↔ q.Sublist t := by
  induction t generalizing q with
  | nil =>
    cases q with
    | nil => simp [fuzzySub]
    | cons qc qs => simp [fuzzySub]
  | cons tc ts ih =>
    cases q with
    | nil => simp [fuzzySub]
    | cons qc qs =>
      simp only [fuzzySub]
      by_cases hc : tc = qc
      · subst hc
        rw [if_pos rfl, ih]
        constructor
        · exact fun h => h.cons₂ tc
        · intro h
          cases h with
          | cons _ h' => exact (List.sublist_cons_self tc qs).trans h'
          | cons₂ _ h' => exact h'
      · rw [if_neg hc, ih]
        constructor
        · exact fun h => h.cons tc
        · intro h
          cases h with
          | cons _ h' => exact h'
          | cons₂ _ h' => exact absurd rfl hc

/-- C4: `fuzzyMatch(text, query)` returns true iff the query's
characters appear, in order, as a subsequence of the lowercased text;
in particular the two documented examples hold. -/
theorem fuzzyMatch_subsequence_spec :
    (∀ text query : String,
      (fuzzyMatch text query = true ↔ query.data.Sublist (lowerData text))) ∧
    fuzzyMatch "Joshua Choong" "jc" = true ∧
    fuzzyMatch "Choong" "jx" = false := by
  refine ⟨fun text query => ?_, by decide, by decide⟩
  exact fuzzySub_iff (lowerData text) query.data

/-- C3: `getMatchScore` returns 100 on a prefix match of the lowercased
text, else 50 on a substring match, else 25 on a fuzzy subsequence
match, else 0; and the three documented example scores hold. -/
theorem getMatchScore_tier_spec (text query : String) :
    ((∃ r, lowerData text = query.data ++ r) → getMatchScore text query = 100) ∧
    (¬ (∃ r, lowerData text = query.data ++ r) →
      (∃ u v, lowerData text = u ++ query.data ++ v) → getMatchScore text query = 50) ∧
    (¬ (∃ u v, lowerData text = u ++ query.data ++ v) →
      query.data.Sublist (lowerData text) → getMatchScore text query = 25) ∧
    (¬ query.data.Sublist (lowerData text) → getMatchScore text query = 0) ∧
    getMatchScore "Joshua Choong" "jc" = 25 ∧
    getMatchScore "Joshua" "jos" = 100 ∧
    getMatchScore "Joshua" "shu" = 50 := by
  refine ⟨?_, ?_, ?_, ?_, by decide, by decide, by decide⟩
  · intro h
    rw [getMatchScore, if_pos ((strStartsWith_iff _ _).mpr h)]
  · intro h1 h2
    rw [getMatchScore, if_neg, if_pos ((strIncludes_iff _ _).mpr h2)]
    simp only [strStartsWith_iff]
    exact h1
  · intro h2 h3
    have hfz : fuzzyMatch text query = true := (fuzzySub_iff _ _).mpr h3
    rw [getMatchScore, if_neg, if_neg, if_pos hfz]
    · simp only [strIncludes_iff]
      exact h2
    · simp only [strStartsWith_iff]
      intro ⟨r, hr⟩
      exact h2 ⟨[], r, by simpa using hr⟩
  · intro h3
    have hpre : ¬ ∃ r, lowerData text = query.data ++ r := by
      intro ⟨r, hr⟩
      exact h3 (hr ▸ (List.sublist_append_left query.data r))
    have hsub : ¬ ∃ u v, lowerData text = u ++ query.data ++ v := by
      intro ⟨u, v, huv⟩
      refine h3 (huv ▸ ?_)
      exact (List.sublist_append_right u query.data).trans
        (List.sublist_append_left (u ++ query.data) v)
    rw [getMatchScore, if_neg, if_neg, if_neg]
    · simp only [fuzzyMatch, fuzzySub_iff]
      exact h3
    · simp only [strIncludes_iff]
      exact hsub
    · simp only [strStartsWith_iff]
      exact hpre

/-- Witness for C3 at a concrete input: the prefix branch fires on
("Joshua", "jos"). -/
theorem getMatchScore_tier_spec_witness :
    getMatchScore "Joshua" "jos" = 100 :=
  (getMatchScore_tier_spec "Joshua" "jos").1 ⟨"hua".data, by decide⟩

/-- C9: the empty query fuzzy-matches every text and scores it at the
top (prefix) tier of 100. -/
theorem empty_query_top_score (text : String) :
    fuzzyMatch text "" = true ∧ getMatchScore text "" = 100 := by
  constructor
  · rw [fuzzyMatch]
    cases lowerData text <;> rfl
  · rw [getMatchScore, if_pos]
    cases lowerData text <;> rfl

/-- C10: for every text and non-empty query the score is one of
0, 25, 50, 100, and it is positive exactly when `fuzzyMatch` holds. -/
theorem score_tiers_and_positivity (text query : String) (hq : query ≠ "") :
    (getMatchScore text query = 0 ∨ getMatchScore text query = 25 ∨
     getMatchScore text query = 50 ∨ getMatchScore text query = 100) ∧
    (0 < getMatchScore text query ↔ fuzzyMatch text query = true) := by
  constructor
  · rw [getMatchScore]
    split_ifs <;> simp
  · rw [getMatchScore]
    split_ifs with h1 h2 h3
    · simp only [Nat.zero_lt_succ, true_iff]
      rw [fuzzyMatch, (fuzzySub_iff _ _)]
      rcases (strStartsWith_iff _ _).mp h1 with ⟨r, hr⟩
      exact hr ▸ (List.sublist_append_left query.data r)
    · simp only [Nat.zero_lt_succ, true_iff]
      rw [fuzzyMatch, (fuzzySub_iff _ _)]
      rcases (strIncludes_iff _ _).mp h2 with ⟨u, v, huv⟩
      refine huv ▸ ?_
      exact (List.sublist_append_right u query.data).trans
        (List.sublist_append_left (u ++ query.data) v)
    · simp [h3]
    · simp [h3]

/-- Witness for C10 at a concrete input. -/
theorem score_tiers_and_positivity_witness :
    (getMatchScore "Joshua Choong" "jc" = 0 ∨ getMatchScore "Joshua Choong" "jc" = 25 ∨
     getMatchScore "Joshua Choong" "jc" = 50 ∨ getMatchScore "Joshua Choong" "jc" = 100) ∧
    (0 < getMatchScore "Joshua Choong" "jc" ↔ fuzzyMatch "Joshua Choong" "jc" = true) :=
  score_tiers_and_positivity "Joshua Choong" "jc" (by decide)

/-- A raw person record from data.json.  Only `name` is required;
absent optional fields are `none`. -/
structure PersonRecord where
  name : String
  website : Option String := none
  linkedIn : Option String := none
  gitHub : Option String := none
  graduationYear : Option String := none
  professionalEmail : Option String := none
deriving DecidableEq

/-- A graph node as built by the data-loading callback
(index.js lines 94-106); the randomized x/y seed positions are owned by
the layout engine and are not modelled. -/
structure Node where
  id : String
  name : String
  website : Option String := none
  linkedIn : Option String := none
  gitHub : Option String := none
  graduationYear : Option String := none
  professionalEmail : Option String := none
  index : Nat := 0
deriving DecidableEq

instance : Inhabited Node := ⟨{ id := "", name := "" }⟩

/-- The state machine behind `replace(/\s+/g, '-')`: each maximal run
of whitespace becomes a single hyphen. -/
def collapseWsAux : Bool → List Char → List Char
  | _, [] => []
  | inWs, c :: cs =>
    if c.isWhitespace then
      if inWs then collapseWsAux true cs
      else '-' :: collapseWsAux true cs
    else c :: collapseWsAux false cs

/-- The derived identifier `person.name.toLowerCase().replace(/\s+/g, '-')`
(index.js line 95). -/
def slug (name : String) : String :=
  ⟨collapseWsAux false (lowerData name)⟩

/-- JS `v || null` on an optional string field: the empty string is
falsy and collapses to null. -/
def orNull : Option String → Option String
  | none => none
  | some s => if s = "" then none else some s

/-- The record normalizer `data.map((person, index) => ...)`
(index.js lines 94-106). -/
def mkNode (person : PersonRecord) (index : Nat) : Node :=
  { id := slug person.name
    name := person.name
    website := orNull person.website
    linkedIn := orNull person.linkedIn
    gitHub := orNull person.gitHub
    graduationYear := orNull person.graduationYear
    professionalEmail := orNull person.professionalEmail
    index := index }

/-- The full node list, indexed in input order. -/
def mkNodes (data : List PersonRecord) : List Node :=
  data.enum.map fun p => mkNode p.2 p.1

/-- The grouping key `node.graduationYear || 'unknown'`
(index.js line 153). -/
def yearKey (n : Node) : String :=
  match n.graduationYear with
  | none => "unknown"
  | some y => if y = "" then "unknown" else y

/-- One step of filling the insertion-ordered `yearGroups` map: append
the node to its key's group, creating the group at the end on a miss
(index.js lines 151-158). -/
def insertGroup : List (String × List Node) → String → Node →
    List (String × List Node)
  | [], k, n => [(k, [n])]
  | (k', g) :: rest, k, n =>
    if k' = k then (k', g ++ [n]) :: rest
    else (k', g) :: insertGroup rest k n

/-- `yearGroups` (index.js lines 151-158): a JS `Map` keyed by
graduation year, in key-insertion order, each group in input order. -/
def yearGroups (nodes : List Node) : List (String × List Node) :=
  nodes.foldl (fun gs n => insertGroup gs (yearKey n) n) []

/-- An edge `{source, target}` between two node identifiers. -/
structure Link where
  source : String
  target : String
deriving DecidableEq

instance : Inhabited Link := ⟨⟨"", ""⟩⟩

/-- The ring loop for groups of three or more (index.js lines 177-183):
node i is linked to node (i+1) mod N. -/
def ringLinks (g : List Node) : List Link :=
  (List.range g.length).map fun i =>
    { source := (g.getD i default).id
      target := (g.getD ((i + 1) % g.length) default).id }

/-- The per-group link synthesis (index.js lines 161-184): no link for
a single node, one link for a pair, a ring otherwise. -/
def groupLinks (g : List Node) : List Link :=
  if g.length = 1 then []
  else if g.length = 2 then
    [{ source := (g.getD 0 default).id, target := (g.getD 1 default).id }]
  else ringLinks g

/-- The complete `links` array (index.js lines 148-184): group links
concatenated in group order. -/
def buildLinks (nodes : List Node) : List Link :=
  (yearGroups nodes).flatMap fun p => groupLinks p.2

lemma insertGroup_keys (gs : List (String × List Node)) (n : Node)
    (hgs : ∀ p ∈ gs, ∀ m ∈ p.2, yearKey m = p.1) :
    ∀ p ∈ insertGroup gs (yearKey n) n, ∀ m ∈ p.2, yearKey m = p.1 := by
  induction gs with
  | nil =>
    intro p hp m hm
    simp only [insertGroup, List.mem_singleton] at hp
    subst hp
    simp only [List.mem_singleton] at hm
    subst hm
    rfl
  | cons hd rest ih =>
    obtain ⟨k', g⟩ := hd
    intro p hp m hm
    rw [insertGroup] at hp
    by_cases h : k' = yearKey n
    · rw [if_pos h] at hp
      rcases List.mem_cons.mp hp with h1 | h1
      · subst h1
        rcases List.mem_append.mp hm with h2 | h2
        · exact hgs (k', g) (by simp) m h2
        · simp only [List.mem_singleton] at h2
          subst h2
          exact h.symm
      · exact hgs p (by simp [h1]) m hm
    · rw [if_neg h] at hp
      rcases List.mem_cons.mp hp with h1 | h1
      · subst h1
        exact hgs (k', g) (by simp) m hm
      · exact ih (fun q hq => hgs q (by simp [hq])) p h1 m hm

lemma yearGroups_keys (nodes : List Node) :
    ∀ p ∈ yearGroups nodes, ∀ m ∈ p.2, yearKey m = p.1 := by
  suffices h : ∀ acc : List (String × List Node),
      (∀ p ∈ acc, ∀ m ∈ p.2, yearKey m = p.1) →
      ∀ p ∈ nodes.foldl (fun gs n => insertGroup gs (yearKey n) n) acc,
        ∀ m ∈ p.2, yearKey m = p.1 from
    h [] (by simp)
  induction nodes with
  | nil => intro acc hacc; simpa using hacc
  | cons n rest ih =>
    intro acc hacc
    simpa using ih _ (insertGroup_keys acc n hacc)

lemma mem_insertGroup_self (gs : List (String × List Node)) (k : String) (n : Node) :
    ∃ p ∈ insertGroup gs k n, n ∈ p.2 := by
  induction gs with
  | nil => exact ⟨(k, [n]), by simp [insertGroup], by simp⟩
  | cons hd rest ih =>
    obtain ⟨k', g⟩ := hd
    rw [insertGroup]
    by_cases h : k' = k
    · exact ⟨(k', g ++ [n]), by simp [h], by simp⟩
    · obtain ⟨p, hp, hn⟩ := ih
      exact ⟨p, by simp [h, hp], hn⟩

lemma mem_insertGroup_mono (gs : List (String × List Node)) (k : String)
    (n m : Node) (h : ∃ p ∈ gs, m ∈ p.2) :
    ∃ p ∈ insertGroup gs k n, m ∈ p.2 := by
  induction gs with
  | nil => simp at h
  | cons hd rest ih =>
    obtain ⟨k', g⟩ := hd
    obtain ⟨p, hp, hm⟩ := h
    rw [insertGroup]
    by_cases hk : k' = k
    · rw [if_pos hk]
      rcases List.mem_cons.mp hp with h1 | h1
      · subst h1
        exact ⟨(k', g ++ [n]), by simp, by simp [hm]⟩
      · exact ⟨p, by simp [h1], hm⟩
    · rw [if_neg hk]
      rcases List.mem_cons.mp hp with h1 | h1
      · subst h1
        exact ⟨(k', g), by simp, hm⟩
      · obtain ⟨q, hq, hmq⟩ := ih ⟨p, h1, hm⟩
        exact ⟨q, by simp [hq], hmq⟩

lemma mem_foldl_mono (rest : List Node) (acc : List (String × List Node))
    (m : Node) (h : ∃ p ∈ acc, m ∈ p.2) :
    ∃ p ∈ rest.foldl (fun gs n => insertGroup gs (yearKey n) n) acc, m ∈ p.2 := by
  induction rest generalizing acc with
  | nil => simpa using h
  | cons n tl ih => simpa using ih _ (mem_insertGroup_mono acc (yearKey n) n m h)

lemma mem_foldl_of_mem (nodes : List Node) :
    ∀ (acc : List (String × List Node)) (m : Node), m ∈ nodes →
      ∃ p ∈ nodes.foldl (fun gs n => insertGroup gs (yearKey n) n) acc, m ∈ p.2 := by
  induction nodes with
  | nil => intro acc m hm; simp at hm
  | cons n rest ih =>
    intro acc m hm
    rcases List.mem_cons.mp hm with h1 | h1
    · subst h1
      simpa using mem_foldl_mono rest _ m (mem_insertGroup_self acc (yearKey m) m)
    · simpa using ih (insertGroup acc (yearKey n) n) m h1

lemma mem_yearGroups (nodes : List Node) (m : Node) (hm : m ∈ nodes) :
    ∃ p ∈ yearGroups nodes, m ∈ p.2 :=
  mem_foldl_of_mem nodes [] m hm

lemma groupLinks_pair (g : List Node) (h : g.length = 2) :
    ∃ a b, g = [a, b] ∧ groupLinks g = [{ source := a.id, target := b.id }] := by
  obtain ⟨a, b, rfl⟩ := List.length_eq_two.mp h
  exact ⟨a, b, rfl, by simp [groupLinks]⟩

lemma groupLinks_ring (g : List Node) (h : 3 ≤ g.length) :
    (groupLinks g).length = g.length ∧
    ∀ i, i < g.length →
      (groupLinks g).getD i default =
        { source := (g.getD i default).id,
          target := (g.getD ((i + 1) % g.length) default).id } := by
  have h1 : ¬ g.length = 1 := by omega
  have h2 : ¬ g.length = 2 := by omega
  rw [groupLinks, if_neg h1, if_neg h2]
  constructor
  · simp [ringLinks]
  · intro i hi
    have hlen : i < (ringLinks g).length := by simpa [ringLinks] using hi
    rw [List.getD_eq_getElem _ _ hlen]
    simp [ringLinks]

lemma groupLinks_mem (g : List Node) (l : Link) (hl : l ∈ groupLinks g) :
    ∃ a ∈ g, ∃ b ∈ g, l = { source := a.id, target := b.id } := by
  rw [groupLinks] at hl
  split_ifs at hl with h1 h2
  · simp at hl
  · obtain ⟨a, b, rfl⟩ := List.length_eq_two.mp h2
    simp only [List.getD, List.mem_singleton] at hl
    exact ⟨a, by simp, b, by simp, by simpa using hl⟩
  · rw [ringLinks] at hl
    simp only [List.mem_map, List.mem_range] at hl
    obtain ⟨i, hi, rfl⟩ := hl
    have hmod : (i + 1) % g.length < g.length := Nat.mod_lt _ (by omega)
    refine ⟨g.getD i default, ?_, g.getD ((i + 1) % g.length) default, ?_, rfl⟩
    · rw [List.getD_eq_getElem _ _ hi]
      exact List.getElem_mem hi
    · rw [List.getD_eq_getElem _ _ hmod]
      exact List.getElem_mem hmod

/-- C2: `yearGroups` partitions the nodes by exact graduation-year
value with missing years under the sentinel "unknown" key; each group
of size 1 yields no link, of size 2 exactly one link between the pair,
and of size N ≥ 3 exactly N links forming a single ring in group
order with a closing link from the last node back to the first; and
every emitted link joins two nodes of the same cohort group. -/
theorem relationship_builder_spec (nodes : List Node) :
    (∀ p ∈ yearGroups nodes, ∀ m ∈ p.2, yearKey m = p.1) ∧
    (∀ m ∈ nodes, ∃ p ∈ yearGroups nodes, m ∈ p.2) ∧
    (∀ p ∈ yearGroups nodes,
      (p.2.length = 1 → groupLinks p.2 = []) ∧
      (p.2.length = 2 → ∃ a b, p.2 = [a, b] ∧
        groupLinks p.2 = [{ source := a.id, target := b.id }]) ∧
      (3 ≤ p.2.length → (groupLinks p.2).length = p.2.length ∧
        ∀ i, i < p.2.length →
          (groupLinks p.2).getD i default =
            { source := (p.2.getD i default).id,
              target := (p.2.getD ((i + 1) % p.2.length) default).id })) ∧
    (∀ l ∈ buildLinks nodes, ∃ p ∈ yearGroups nodes, ∃ a ∈ p.2, ∃ b ∈ p.2,
      l = { source := a.id, target := b.id } ∧ yearKey a = yearKey b) := by
  refine ⟨yearGroups_keys nodes, mem_yearGroups nodes, ?_, ?_⟩
  · intro p _
    refine ⟨fun h1 => by simp [groupLinks, h1], groupLinks_pair p.2,
      groupLinks_ring p.2⟩
  · intro l hl
    rw [buildLinks] at hl
    simp only [List.mem_flatMap] at hl
    obtain ⟨p, hp, hlp⟩ := hl
    obtain ⟨a, ha, b, hb, rfl⟩ := groupLinks_mem p.2 l hlp
    refine ⟨p, hp, a, ha, b, hb, rfl, ?_⟩
    rw [yearGroups_keys nodes p hp a ha, yearGroups_keys nodes p hp b hb]

/-- The scenario records from the spec: Alice, Bob and Cara, all
class of 2020. -/
def demoData : List PersonRecord :=
  [{ name := "Alice", graduationYear := some "2020" },
   { name := "Bob", graduationYear := some "2020" },
   { name := "Cara", graduationYear := some "2020" }]

/-- The normalized scenario nodes. -/
def demoNodes : List Node := mkNodes demoData

/-- Witness for C2 at the concrete three-node cohort: the link
alice-bob of the ring joins two nodes of the same cohort. -/
theorem relationship_builder_spec_witness :
    ∃ p ∈ yearGroups demoNodes, ∃ a ∈ p.2, ∃ b ∈ p.2,
      ({ source := "alice", target := "bob" } : Link) =
        { source := a.id, target := b.id } ∧ yearKey a = yearKey b :=
  (relationship_builder_spec demoNodes).2.2.2
    { source := "alice", target := "bob" } (by decide)

/-- The class-toggling state the click handlers act on: the set of
identifiers whose graph node carries the `active` class, the set of
identifiers whose sidebar card carries it, and whether the tooltip is
in its `detailed` state. -/
structure UIState where
  activeNodes : Finset String
  activeCards : Finset String
  tooltipDetailed : Bool
deriving DecidableEq

/-- The person-card click handler (index.js lines 134-142): clear the
`active` class on every card, set it on the clicked card, and open the
detailed tooltip.  The graph nodes are not touched. -/
def clickCard (s : UIState) (id : String) : UIState :=
  { s with activeCards := {id}, tooltipDetailed := true }

/-- The node circle click handler (index.js lines 226-242): clear the
`active` class on every node and every card, set it on the clicked
node and on the card with the matching identifier, and open the
detailed tooltip. -/
def clickNode (_ : UIState) (id : String) : UIState :=
  { activeNodes := {id}, activeCards := {id}, tooltipDetailed := true }

/-- The document click listener (index.js lines 353-360): when the
detailed tooltip is open and the click target is neither a node nor a
card, hide the tooltip and clear every `active` class. -/
def outsideClick (s : UIState) : UIState :=
  if s.tooltipDetailed then
    { activeNodes := ∅, activeCards := ∅, tooltipDetailed := false }
  else s

/-- C1 fails as stated: a click on a sidebar list entry does not put
the `active` class on any graph node, so afterwards zero (not exactly
one) graph nodes are active.  Concretely, clicking card "alice" from
the pristine state leaves no active node. -/
theorem activation_sync_counterexample :
    ¬ ((clickCard
        { activeNodes := ∅, activeCards := ∅, tooltipDetailed := false }
        "alice").activeNodes.card = 1) := by
  simp [clickCard]

/-- C1 amended: a click on a graph node activates exactly one node and
exactly one list entry, both with the clicked identifier; a click on a
list entry activates exactly that list entry but leaves the nodes'
active state unchanged; and an outside click after either kind of
activation clears both active sets to zero. -/
theorem activation_behavior (s : UIState) (id : String) :
    (clickNode s id).activeNodes = {id} ∧
    (clickNode s id).activeCards = {id} ∧
    (clickNode s id).activeNodes.card = 1 ∧
    (clickNode s id).activeCards.card = 1 ∧
    (clickCard s id).activeCards = {id} ∧
    (clickCard s id).activeCards.card = 1 ∧
    (clickCard s id).activeNodes = s.activeNodes ∧
    (outsideClick (clickNode s id)).activeNodes = ∅ ∧
    (outsideClick (clickNode s id)).activeCards = ∅ ∧
    (outsideClick (clickCard s id)).activeNodes = ∅ ∧
    (outsideClick (clickCard s id)).activeCards = ∅ := by
  simp [clickNode, clickCard, outsideClick]

/-- The browser viewport, `window.innerWidth` by `window.innerHeight`. -/
structure Viewport where
  innerWidth : ℚ
  innerHeight : ℚ
deriving DecidableEq

/-- The fallback tooltip width used when the element has not rendered
(index.js line 49). -/
def fallbackWidth (isDetailed : Bool) : ℚ :=
  if isDetailed then 280 else 180

/-- The fallback tooltip height used when the element has not rendered
(index.js line 50). -/
def fallbackHeight (isDetailed : Bool) : ℚ :=
  if isDetailed then 200 else 60

/-- The tooltip width `positionTooltip` computes with: the measured
size when available, else the fallback. -/
def usedWidth (dims : Option (ℚ × ℚ)) (isDetailed : Bool) : ℚ :=
  match dims with
  | some d => d.1
  | none => fallbackWidth isDetailed

/-- The tooltip height `positionTooltip` computes with. -/
def usedHeight (dims : Option (ℚ × ℚ)) (isDetailed : Bool) : ℚ :=
  match dims with
  | some d => d.2
  | none => fallbackHeight isDetailed

/-- JS `Math.max` on two numbers. -/
def jsMax (a b : ℚ) : ℚ := if a ≤ b then b else a

/-- JS `Math.min` on two numbers. -/
def jsMin (a b : ℚ) : ℚ := if a ≤ b then a else b

/-- `positionTooltip(x, y, isDetailed, nodeRadius)` (index.js lines
47-76), parameterized additionally by the viewport and by the measured
tooltip size (`none` when `tooltip.node()` is unavailable).  Returns
the pair (left, top). -/
def positionTooltip (vp : Viewport) (dims : Option (ℚ × ℚ))
    (x y : ℚ) (isDetailed : Bool) (nodeRadius : ℚ) : ℚ × ℚ :=
  let tooltipWidth := usedWidth dims isDetailed
  let tooltipHeight := usedHeight dims isDetailed
  let padding : ℚ := 12
  let gap : ℚ := 16
  let left0 := x - tooltipWidth / 2
  let top0 := y - nodeRadius - tooltipHeight - gap
  let left1 := jsMax padding (jsMin left0 (vp.innerWidth - tooltipWidth - padding))
  let top1 := if top0 < padding then y + nodeRadius + gap else top0
  if top1 + tooltipHeight > vp.innerHeight - padding then
    let top2 := jsMax padding (y - tooltipHeight / 2)
    let left2 := x + nodeRadius + gap
    let left3 :=
      if left2 + tooltipWidth > vp.innerWidth - padding then
        x - nodeRadius - tooltipWidth - gap
      else left2
    (left3, top2)
  else (left1, top1)

/-- C5 fails as stated: with the hover fallback size 180 x 60, a
viewport of exactly twice that size (360 x 120) and the in-viewport
anchor (180, 95), the side fallback fires and returns left = -24 and
top = 65, so the rectangle leaves the padded viewport on the left and
the bottom. -/
theorem tooltip_bounds_counterexample :
    positionTooltip { innerWidth := 360, innerHeight := 120 } none
        180 95 false 8 = (-24, 65) ∧
    ¬ ((12 : ℚ) ≤ (positionTooltip { innerWidth := 360, innerHeight := 120 }
        none 180 95 false 8).1) ∧
    ¬ ((positionTooltip { innerWidth := 360, innerHeight := 120 }
        none 180 95 false 8).2 + 60 ≤ 120 - 12) := by
  have h : positionTooltip { innerWidth := 360, innerHeight := 120 } none
      180 95 false 8 = (-24, 65) := by
    rw [positionTooltip]
    norm_num [usedWidth, usedHeight, fallbackWidth, fallbackHeight, jsMax, jsMin]
  refine ⟨h, ?_, ?_⟩ <;> rw [h] <;> norm_num

/-- C5 amended: for every anchor inside the viewport, the returned
rectangle stays within the viewport inset by the padding of 12 on
every edge, provided the viewport exceeds twice the tooltip's
dimensions by a further 72 = 2 * (nodeRadius + gap + padding) in each
direction (the bound the side fallback needs; twice the fallback
dimensions alone is not enough). -/
theorem tooltip_bounds_amended (vp : Viewport) (dims : Option (ℚ × ℚ))
    (x y : ℚ) (d : Bool)
    (hx0 : 0 ≤ x) (hxW : x ≤ vp.innerWidth)
    (hy0 : 0 ≤ y) (hyH : y ≤ vp.innerHeight)
    (hw : 0 ≤ usedWidth dims d) (hh : 0 ≤ usedHeight dims d)
    (hW : 2 * usedWidth dims d + 72 ≤ vp.innerWidth)
    (hH : 2 * usedHeight dims d + 72 ≤ vp.innerHeight) :
    12 ≤ (positionTooltip vp dims x y d 8).1 ∧
    (positionTooltip vp dims x y d 8).1 + usedWidth dims d ≤ vp.innerWidth - 12 ∧
    12 ≤ (positionTooltip vp dims x y d 8).2 ∧
    (positionTooltip vp dims x y d 8).2 + usedHeight dims d ≤ vp.innerHeight - 12 := by
  rw [positionTooltip]
  simp only [jsMax, jsMin]
  split_ifs <;> dsimp only <;>
    refine ⟨by linarith, by linarith, by linarith, by linarith⟩

/-- Witness for C5 (amended) at a concrete input: detailed tooltip of
fallback size 280 x 200 in a 1000 x 1000 viewport, anchor (500, 500). -/
theorem tooltip_bounds_amended_witness :
    12 ≤ (positionTooltip { innerWidth := 1000, innerHeight := 1000 }
      none 500 500 true 8).1 ∧
    (positionTooltip { innerWidth := 1000, innerHeight := 1000 }
      none 500 500 true 8).1 + usedWidth none true ≤ 1000 - 12 ∧
    12 ≤ (positionTooltip { innerWidth := 1000, innerHeight := 1000 }
      none 500 500 true 8).2 ∧
    (positionTooltip { innerWidth := 1000, innerHeight := 1000 }
      none 500 500 true 8).2 + usedHeight none true ≤ 1000 - 12 :=
  tooltip_bounds_amended { innerWidth := 1000, innerHeight := 1000 } none
    500 500 true (by norm_num) (by norm_num) (by norm_num) (by norm_num)
    (by norm_num [usedWidth, fallbackWidth])
    (by norm_num [usedHeight, fallbackHeight])
    (by norm_num [usedWidth, fallbackWidth])
    (by norm_num [usedHeight, fallbackHeight])

/-- C6: when the anchor is so close to the viewport top that the
above-placement would land within the padding, the returned top is at
or below the padding floor of 12, and the tooltip is placed below the
anchor (top = y + nodeRadius + gap) or beside it
(top = max(padding, y - height/2)). -/
theorem tooltip_top_floor (vp : Viewport) (dims : Option (ℚ × ℚ))
    (x y : ℚ) (d : Bool) (hy0 : 0 ≤ y)
    (habove : y - 8 - usedHeight dims d - 16 < 12) :
    12 ≤ (positionTooltip vp dims x y d 8).2 ∧
    ((positionTooltip vp dims x y d 8).2 = y + 8 + 16 ∨
     (positionTooltip vp dims x y d 8).2 =
       jsMax 12 (y - usedHeight dims d / 2)) := by
  rw [positionTooltip]
  simp only []
  rw [if_pos habove]
  split_ifs with h2 h3 <;> dsimp only
  · refine ⟨?_, Or.inr rfl⟩
    rw [jsMax]
    split_ifs with h4 <;> linarith
  · refine ⟨?_, Or.inr rfl⟩
    rw [jsMax]
    split_ifs with h4 <;> linarith
  · exact ⟨by linarith, Or.inl rfl⟩

/-- Witness for C6 at a concrete input: hover tooltip, anchor at
(100, 10) near the top of an 800 x 600 viewport. -/
theorem tooltip_top_floor_witness :
    12 ≤ (positionTooltip { innerWidth := 800, innerHeight := 600 }
      none 100 10 false 8).2 ∧
    ((positionTooltip { innerWidth := 800, innerHeight := 600 }
      none 100 10 false 8).2 = 10 + 8 + 16 ∨
     (positionTooltip { innerWidth := 800, innerHeight := 600 }
      none 100 10 false 8).2 = jsMax 12 (10 - usedHeight none false / 2)) :=
  tooltip_top_floor { innerWidth := 800, innerHeight := 600 } none
    100 10 false (by norm_num) (by norm_num [usedHeight, fallbackHeight])

/-- The `search-match` / `search-dim` class pair the search handler
assigns to every node and card (index.js lines 417-444). -/
structure SearchFlags where
  searchMatch : Bool
  searchDim : Bool
deriving DecidableEq

/-- JS `value.trim()` over character lists: strip whitespace from both
ends. -/
def trimChars (l : List Char) : List Char :=
  ((l.dropWhile Char.isWhitespace).reverse.dropWhile Char.isWhitespace).reverse

/-- The text of a card's `.person-details .year` element: the card
template renders `Class of <year>` only for a truthy year (index.js
line 130), and the search reads the empty string back when the element
is missing (index.js lines 431-432). -/
def cardYearText (n : Node) : String :=
  match n.graduationYear with
  | some y => if y = "" then "" else "Class of " ++ y
  | none => ""

/-- The per-card effective score of the search loop (index.js lines
433-435): the best of the name score and the year-label score. -/
def effScore (n : Node) (q : String) : Nat :=
  max (getMatchScore n.name q) (getMatchScore (cardYearText n) q)

/-- The score the claim assigns to a card's cohort label, reading
"label" as the spec does everywhere else: the raw `graduationYear`
value when present, else non-matching (0). -/
def cohortLabelScore (n : Node) (q : String) : Nat :=
  match n.graduationYear with
  | some y => getMatchScore y q
  | none => 0

/-- The claim's effective score of a card: max of the name score and
the raw cohort-label score. -/
def claimEffScore (n : Node) (q : String) : Nat :=
  max (getMatchScore n.name q) (cohortLabelScore n q)

/-- The rendered year badge of a card, present exactly when the card
template emits it (index.js line 130): the text "Class of <year>". -/
def renderedBadge (n : Node) : Option String :=
  match n.graduationYear with
  | some y => if y = "" then none else some ("Class of " ++ y)
  | none => none

/-- The effective score over the rendered badge: max of the name score
and the badge-text score when the badge is present, else 0.  This is
what the card loop actually maximizes, since it reads the badge text
back from the DOM (index.js lines 430-435). -/
def badgeEffScore (n : Node) (q : String) : Nat :=
  max (getMatchScore n.name q)
    (match renderedBadge n with
     | some lab => getMatchScore lab q
     | none => 0)

/-- The per-node effective score of the search loop (index.js lines
418-420): the year is scored raw (not as the rendered label) and a
falsy year scores 0. -/
def nodeEffScore (n : Node) (q : String) : Nat :=
  max (getMatchScore n.name q)
    (match n.graduationYear with
     | some y => if y = "" then 0 else getMatchScore y q
     | none => 0)

/-- The class pair assigned for a score: matched iff the score is
positive, dimmed otherwise (index.js lines 421-424, 436-438). -/
def matchFlags (score : Nat) : SearchFlags :=
  { searchMatch := decide (0 < score), searchDim := !decide (0 < score) }

/-- The `firstMatch` / `bestScore` accumulation of the card loop
(index.js lines 413-444): walk the cards in order, recording the index
of the first card whose score is positive and strictly exceeds the
best so far. -/
def bestAux (q : String) : List Node → Nat → Option Nat × Nat → Option Nat × Nat
  | [], _, acc => acc
  | n :: rest, i, (fm, bs) =>
    let score := effScore n q
    if 0 < score ∧ bs < score then bestAux q rest (i + 1) (some i, score)
    else bestAux q rest (i + 1) (fm, bs)

/-- The index of the card scrolled into view, when any card matches. -/
def bestIndex (cards : List Node) (q : String) : Option Nat :=
  (bestAux q cards 0 (none, 0)).1

/-- The result of one run of the search input handler: the class pairs
assigned to every node and card, and the index of the card scrolled
into view. -/
structure SearchResult where
  nodeFlags : List SearchFlags
  cardFlags : List SearchFlags
  scrollTarget : Option Nat
deriving DecidableEq

/-- The search input handler (index.js lines 401-450): lowercase and
trim the input; on an empty query clear every class on nodes and
cards and scroll nowhere; otherwise classify every node and card and
scroll to the best match. -/
def handleSearch (nodes : List Node) (value : String) : SearchResult :=
  let query : String := ⟨trimChars (lowerData value)⟩
  if query = "" then
    { nodeFlags := nodes.map fun _ => { searchMatch := false, searchDim := false }
      cardFlags := nodes.map fun _ => { searchMatch := false, searchDim := false }
      scrollTarget := none }
  else
    { nodeFlags := nodes.map fun n => matchFlags (nodeEffScore n query)
      cardFlags := nodes.map fun n => matchFlags (effScore n query)
      scrollTarget := bestIndex nodes query }

/-- C7: when the lowercased, trimmed query is empty, the handler
clears the match/dim classification on every graph node and every
sidebar card — no element is left highlighted or dimmed — and nothing
is scrolled into view.  The handler never reads the previous classes,
so this holds regardless of prior search state. -/
theorem empty_query_clears (nodes : List Node) (value : String)
    (h : trimChars (lowerData value) = []) :
    (∀ f ∈ (handleSearch nodes value).nodeFlags,
      f.searchMatch = false ∧ f.searchDim = false) ∧
    (∀ f ∈ (handleSearch nodes value).cardFlags,
      f.searchMatch = false ∧ f.searchDim = false) ∧
    (handleSearch nodes value).nodeFlags.length = nodes.length ∧
    (handleSearch nodes value).cardFlags.length = nodes.length ∧
    (handleSearch nodes value).scrollTarget = none := by
  have hq : (⟨trimChars (lowerData value)⟩ : String) = "" := by
    rw [h]
  simp only [handleSearch]
  rw [hq]
  simp [List.mem_map]

/-- Witness for C7 at a concrete input: a whitespace-only search box
over the scenario nodes. -/
theorem empty_query_clears_witness :
    (∀ f ∈ (handleSearch demoNodes " ").nodeFlags,
      f.searchMatch = false ∧ f.searchDim = false) ∧
    (∀ f ∈ (handleSearch demoNodes " ").cardFlags,
      f.searchMatch = false ∧ f.searchDim = false) ∧
    (handleSearch demoNodes " ").nodeFlags.length = demoNodes.length ∧
    (handleSearch demoNodes " ").cardFlags.length = demoNodes.length ∧
    (handleSearch demoNodes " ").scrollTarget = none :=
  empty_query_clears demoNodes " " (by decide)

lemma getMatchScore_empty_text (q : String) (hq : q ≠ "") :
    getMatchScore "" q = 0 := by
  obtain ⟨c, cs, hcs⟩ : ∃ c cs, q.data = c :: cs := by
    cases hqd : q.data with
    | nil => exact absurd (String.ext hqd) hq
    | cons c cs => exact ⟨c, cs, rfl⟩
  rw [getMatchScore, fuzzyMatch, hcs]
  rfl

lemma effScore_eq_badge (n : Node) (q : String) (hq : q ≠ "") :
    effScore n q = badgeEffScore n q := by
  cases hgy : n.graduationYear with
  | none =>
    simp [effScore, badgeEffScore, cardYearText, renderedBadge, hgy,
      getMatchScore_empty_text q hq]
  | some y =>
    by_cases hy : y = "" <;>
      simp [effScore, badgeEffScore, cardYearText, renderedBadge, hgy, hy,
        getMatchScore_empty_text q hq]

/-- The maximum card score over a list, the reference value for the
`bestScore` accumulator. -/
def listMax (q : String) : List Node → Nat
  | [] => 0
  | n :: rest => max (effScore n q) (listMax q rest)

lemma le_listMax (q : String) {cards : List Node} {n : Node} (hn : n ∈ cards) :
    effScore n q ≤ listMax q cards := by
  induction cards with
  | nil => simp at hn
  | cons m rest ih =>
    rw [listMax]
    rcases List.mem_cons.mp hn with h | h
    · subst h
      exact le_max_left _ _
    · exact le_trans (ih h) (le_max_right _ _)

lemma bestAux_spec (q : String) (cs : List Node) :
    ∀ (i : Nat) (fm : Option Nat) (bs : Nat),
      (listMax q cs ≤ bs → bestAux q cs i (fm, bs) = (fm, bs)) ∧
      (bs < listMax q cs → ∃ k, k < cs.length ∧
        bestAux q cs i (fm, bs) = (some (i + k), listMax q cs) ∧
        effScore (cs.getD k default) q = listMax q cs ∧
        ∀ j, j < k → effScore (cs.getD j default) q < listMax q cs) := by
  induction cs with
  | nil =>
    intro i fm bs
    refine ⟨fun _ => rfl, fun h => absurd h (by simp [listMax])⟩
  | cons n rest ih =>
    intro i fm bs
    constructor
    · intro hle
      rw [listMax] at hle
      have hs : effScore n q ≤ bs := le_trans (le_max_left _ _) hle
      have hr : listMax q rest ≤ bs := le_trans (le_max_right _ _) hle
      rw [bestAux]
      rw [if_neg (fun hc => absurd hc.2 (not_lt.mpr hs))]
      exact (ih (i + 1) fm bs).1 hr
    · intro hlt
      rw [listMax] at hlt
      rw [bestAux]
      by_cases hcond : 0 < effScore n q ∧ bs < effScore n q
      · rw [if_pos hcond]
        by_cases hr : listMax q rest ≤ effScore n q
        · refine ⟨0, by simp, ?_, ?_, fun j hj => absurd hj (Nat.not_lt_zero j)⟩
          · rw [(ih (i + 1) (some i) (effScore n q)).1 hr, listMax,
              max_eq_left hr, Nat.add_zero]
          · rw [List.getD_cons_zero, listMax, max_eq_left hr]
        · push_neg at hr
          obtain ⟨k, hk, heq, heff, hprev⟩ :=
            (ih (i + 1) (some i) (effScore n q)).2 hr
          have hmax : max (effScore n q) (listMax q rest) = listMax q rest :=
            max_eq_right (le_of_lt hr)
          refine ⟨k + 1, by simpa using Nat.succ_lt_succ hk, ?_, ?_, ?_⟩
          · rw [heq, listMax, hmax]
            congr 2
            omega
          · rw [List.getD_cons_succ, listMax, hmax]
            exact heff
          · intro j hj
            cases j with
            | zero =>
              rw [List.getD_cons_zero, listMax, hmax]
              exact hr
            | succ j' =>
              rw [List.getD_cons_succ, listMax, hmax]
              exact hprev j' (by omega)
      · rw [if_neg hcond]
        have hs : effScore n q ≤ bs := by
          by_contra hbs
          push_neg at hbs
          exact hcond ⟨lt_of_le_of_lt (Nat.zero_le bs) hbs, hbs⟩
        have hrlt : bs < listMax q rest := by
          rcases le_total (listMax q rest) (effScore n q) with hcase | hcase
          · rw [max_eq_left hcase] at hlt
            omega
          · rw [max_eq_right hcase] at hlt
            exact hlt
        obtain ⟨k, hk, heq, heff, hprev⟩ := (ih (i + 1) fm bs).2 hrlt
        have hmax : max (effScore n q) (listMax q rest) = listMax q rest :=
          max_eq_right (le_trans hs (le_of_lt hrlt))
        refine ⟨k + 1, by simpa using Nat.succ_lt_succ hk, ?_, ?_, ?_⟩
        · rw [heq, listMax, hmax]
          congr 2
          omega
        · rw [List.getD_cons_succ, listMax, hmax]
          exact heff
        · intro j hj
          cases j with
          | zero =>
            rw [List.getD_cons_zero, listMax, hmax]
            omega
          | succ j' =>
            rw [List.getD_cons_succ, listMax, hmax]
            exact hprev j' (by omega)

/-- C8 amended: for a non-empty query with at least one matching
card, the card scrolled into view is the one with the greatest
effective score over the rendered badge (max of name score and the
score of the badge text "Class of <year>" when present, else 0) —
not over the raw cohort label; among cards tied for the greatest
score the first in list order is chosen. -/
theorem best_match_selection (nodes : List Node) (value q : String)
    (hquery : (⟨trimChars (lowerData value)⟩ : String) = q)
    (hqne : q ≠ "")
    (hex : ∃ n ∈ nodes, 0 < badgeEffScore n q) :
    ∃ i, i < nodes.length ∧
      (handleSearch nodes value).scrollTarget = some i ∧
      0 < badgeEffScore (nodes.getD i default) q ∧
      (∀ n ∈ nodes, badgeEffScore n q ≤ badgeEffScore (nodes.getD i default) q) ∧
      (∀ j, j < i →
        badgeEffScore (nodes.getD j default) q <
          badgeEffScore (nodes.getD i default) q) := by
  have hscroll : (handleSearch nodes value).scrollTarget = bestIndex nodes q := by
    simp only [handleSearch]
    rw [hquery, if_neg hqne]
  obtain ⟨n0, hn0, hpos⟩ := hex
  have hpos' : 0 < effScore n0 q := by
    rw [effScore_eq_badge n0 q hqne]
    exact hpos
  have hmaxpos : 0 < listMax q nodes := lt_of_lt_of_le hpos' (le_listMax q hn0)
  obtain ⟨k, hk, heq, heff, hprev⟩ := (bestAux_spec q nodes 0 none 0).2 hmaxpos
  refine ⟨k, hk, ?_, ?_, ?_, ?_⟩
  · rw [hscroll, bestIndex, heq]
    simp
  · rw [← effScore_eq_badge _ _ hqne, heff]
    exact hmaxpos
  · intro n hn
    rw [← effScore_eq_badge _ _ hqne, ← effScore_eq_badge _ _ hqne, heff]
    exact le_listMax q hn
  · intro j hj
    rw [← effScore_eq_badge _ _ hqne, ← effScore_eq_badge _ _ hqne, heff]
    exact hprev j hj

/-- Witness for C8 at a concrete input: searching "Bob" among the
scenario cards scrolls to the card of Bob. -/
theorem best_match_selection_witness :
    ∃ i, i < demoNodes.length ∧
      (handleSearch demoNodes "Bob").scrollTarget = some i ∧
      0 < badgeEffScore (demoNodes.getD i default) "bob" ∧
      (∀ n ∈ demoNodes, badgeEffScore n "bob" ≤
        badgeEffScore (demoNodes.getD i default) "bob") ∧
      (∀ j, j < i →
        badgeEffScore (demoNodes.getD j default) "bob" <
          badgeEffScore (demoNodes.getD i default) "bob") :=
  best_match_selection demoNodes "Bob" "bob" (by decide) (by decide) (by decide)

/-- Two cards separating the raw cohort label from the rendered badge:
one named "x" in cohort 2020, one named "2020 club" with no cohort. -/
def c8Cards : List Node :=
  [{ id := "x", name := "x", graduationYear := some "2020" },
   { id := "2020-club", name := "2020 club" }]

/-- C8 fails as stated: searching "2020" over `c8Cards`, both cards
score 100 under the claim's effective score (max of name score and
raw cohort-label score), so the claim picks the first card, index 0.
The handler instead scrolls to index 1, because the card loop scores
the rendered badge text "Class of 2020" (a substring match, 50)
rather than the raw label "2020" (a prefix match, 100). -/
theorem best_match_counterexample :
    (handleSearch c8Cards "2020").scrollTarget = some 1 ∧
    claimEffScore (c8Cards.getD 0 default) "2020" = 100 ∧
    claimEffScore (c8Cards.getD 1 default) "2020" = 100 ∧
    ¬ ((handleSearch c8Cards "2020").scrollTarget = some 0) := by
  refine ⟨by decide, by decide, by decide, by decide⟩
